import Mathlib

/-!
Verification of the dynamic-form schema interpretation engine
(`DynamicFormGenerator`, `MultiStepForm`, the condition evaluator, and the
validator registries) through a shallow embedding of the TypeScript source.

Conventions of the embedding:
* JavaScript values appearing in form snapshots are modelled by `JSValue`;
  a field absent from the snapshot (JS `undefined`) is `JSValue.undefined`.
  JS numbers are modelled as `Int` (every numeric literal appearing in the
  schemas and conditions at issue is integral).
* JS objects used as string-keyed maps are modelled either as association
  lists (`List (String × _)`, mirroring `Object.keys` iteration) or as
  functions `String → _` when only point lookups occur.
* Strict equality `===` between a snapshot value and a schema-supplied
  scalar (`string | number | boolean`) is `jsEqScalar`; `===` against a
  possibly-absent scalar is `jsEqOptScalar` (`x === undefined` is true
  exactly when `x` is `undefined`).
-/

namespace DynamicForm

/-- JavaScript runtime values stored in the form value snapshot. -/
inductive JSValue where
  | undefined
  | null
  | str (s : String)
  | num (n : Int)
  | bool (b : Bool)
  | arr (xs : List JSValue)
deriving Repr

/-- Scalar schema constants: the TS type of `ConditionalLogic.value` and
`ConditionalLogic.equals` is `string | number | boolean`. -/
inductive Scalar where
  | s (v : String)
  | n (v : Int)
  | b (v : Bool)
deriving DecidableEq, Repr

/-- Strict equality `fieldValue === c` between a snapshot value and a schema
scalar: true only when the runtime types agree and the payloads are equal. -/
def jsEqScalar (v : JSValue) (c : Scalar) : Bool :=
  match v, c with
  | .str a, .s b => a == b
  | .num a, .n b => a == b
  | .bool a, .b b => a == b
  | _, _ => false

/-- Strict equality `fieldValue === condition.value` where `condition.value`
may be absent: `x === undefined` holds exactly for `undefined`. -/
def jsEqOptScalar (v : JSValue) (c : Option Scalar) : Bool :=
  match c with
  | some sc => jsEqScalar v sc
  | none => match v with | .undefined => true | _ => false

/-- JavaScript `String(c)` applied to `condition.value` (used by the
`contains`/`notContains` substring branch). -/
def scalarToString (c : Option Scalar) : String :=
  match c with
  | some (.s v) => v
  | some (.n v) => toString v
  | some (.b v) => if v then "true" else "false"
  | none => "undefined"

/-- Substring test `hay.includes(needle)` on JS strings. -/
def strIncludes (hay needle : String) : Bool :=
  decide (List.IsInfix needle.toList hay.toList)

/-- Array membership `xs.includes(c)` (SameValueZero agrees with `===` on the
scalar/undefined operands that can occur here). -/
def arrIncludes (xs : List JSValue) (c : Option Scalar) : Bool :=
  xs.any (fun x => jsEqOptScalar x c)

/-- Condition operators of `ConditionalLogic.operator`. -/
inductive CondOp where
  | equals
  | notEquals
  | greaterThan
  | lessThan
  | contains
  | notContains
  | isEmpty
  | isNotEmpty
deriving DecidableEq, Repr

/-- Logical operators of `ConditionalLogic.logicalOperator`. -/
inductive LogicOp where
  | and
  | or
deriving DecidableEq, Repr

/-- The `ConditionalLogic` interface: a required `field`, optional
`operator`, `value`, deprecated `equals` alias, nested `conditions`
(absent `undefined` and present-but-empty both fall to the leaf branch, so
both are modelled by `[]`), and optional `logicalOperator`. -/
inductive CondExpr where
  | mk (field : String) (operator : Option CondOp) (value : Option Scalar)
       (equalsVal : Option Scalar) (conditions : List CondExpr)
       (logicalOperator : Option LogicOp) : CondExpr
deriving Repr

/-- Accessor for the nested `conditions` list. -/
def CondExpr.conditions : CondExpr → List CondExpr
  | .mk _ _ _ _ cs _ => cs

/-- Accessor for the `logicalOperator` tag. -/
def CondExpr.logicalOperator : CondExpr → Option LogicOp
  | .mk _ _ _ _ _ l => l

/-- Leaf evaluation of `evaluateCondition` (source lines 748-780): the
deprecated `equals` alias takes precedence; otherwise the `operator` switch
runs, with its `default` branch falling back to equality against
`value`. -/
def evalLeaf (vals : String → JSValue) (field : String) (op : Option CondOp)
    (value equalsVal : Option Scalar) : Bool :=
  let fieldValue := vals field
  match equalsVal with
  | some e => jsEqScalar fieldValue e
  | none =>
    match op with
    | some .equals => jsEqOptScalar fieldValue value
    | some .notEquals => !jsEqOptScalar fieldValue value
    | some .greaterThan =>
      (match fieldValue, value with
       | .num a, some (.n b) => a > b
       | _, _ => false)
    | some .lessThan =>
      (match fieldValue, value with
       | .num a, some (.n b) => a < b
       | _, _ => false)
    | some .contains =>
      (match fieldValue with
       | .arr xs => arrIncludes xs value
       | .str s => strIncludes s (scalarToString value)
       | _ => false)
    | some .notContains =>
      (match fieldValue with
       | .arr xs => !arrIncludes xs value
       | .str s => !strIncludes s (scalarToString value)
       | _ => false)
    | some .isEmpty =>
      (match fieldValue with
       | .undefined => true
       | .null => true
       | .str s => s == ""
       | .arr xs => xs.isEmpty
       | _ => false)
    | some .isNotEmpty =>
      (match fieldValue with
       | .undefined => false
       | .null => false
       | .str s => s != ""
       | .arr xs => !xs.isEmpty
       | _ => true)
    | none => jsEqOptScalar fieldValue value

mutual

/-- The `evaluateCondition` function (source lines 733-781): composite nodes
(nonempty `conditions`) recurse into every child and combine the results
with `some`/`every` according to `logicalOperator` (anything other than
`"or"`, including an omitted operator, combines with `every`); leaves
dispatch through `evalLeaf`. The source maps the children to a `results`
array and then applies `some(r => r)`/`every(r => r)`; evaluation is pure,
so this equals the boolean fold over the children computed by the mutual
helpers (`anyChildHolds`/`allChildrenHold`). -/
def evaluateCondition (vals : String → JSValue) : CondExpr → Bool
  | .mk field op value equalsVal conds logicalOperator =>
    if 0 < conds.length then
      match logicalOperator with
      | some .or => anyChildHolds vals conds
      | _ => allChildrenHold vals conds
    else
      evalLeaf vals field op value equalsVal

/-- Disjunction of the child results (`results.some(r => r)`). -/
def anyChildHolds (vals : String → JSValue) : List CondExpr → Bool
  | [] => false
  | c :: cs => evaluateCondition vals c || anyChildHolds vals cs

/-- Conjunction of the child results (`results.every(r => r)`). -/
def allChildrenHold (vals : String → JSValue) : List CondExpr → Bool
  | [] => true
  | c :: cs => evaluateCondition vals c && allChildrenHold vals cs

end

/-- Field types of the `FieldType` union (source line 351). -/
inductive FieldType where
  | string
  | number
  | boolean
  | date
  | radio
  | textarea
  | file
  | multiselect
  | dropzone
  | signature
deriving DecidableEq, Repr

/-- The `customValidator` extension point of `ValidationRules`. -/
structure CustomValidatorSpec where
  fields : List String
  validator : String
deriving DecidableEq, Repr

/-- The `asyncValidator` extension point of `ValidationRules`. -/
structure AsyncValidatorSpec where
  name : String
  params : List String
deriving DecidableEq, Repr

/-- The `ValidationRules` interface (source lines 353-371). Absent optional
members are `none`; `required` is read through JS truthiness, so absent and
`false` coincide and are both modelled by `false`. The `pattern` member is
omitted from the model: none of the verified properties concerns a schema
declaring a regular-expression pattern. -/
structure ValidationRules where
  required : Bool := false
  min : Option Int := none
  max : Option Int := none
  minLength : Option Nat := none
  maxLength : Option Nat := none
  errorMessage : Option String := none
  customValidator : Option CustomValidatorSpec := none
  asyncValidator : Option AsyncValidatorSpec := none
deriving DecidableEq, Repr

/-- The members of the `FormField` interface consumed by the engine
(display metadata such as label, placeholder and tooltip is opaque to
validation and visibility and is not modelled). -/
structure FieldSpec where
  name : String
  type : FieldType
  validation : Option ValidationRules := none
  conditional : Option CondExpr := none

/-- A section of a multi-section schema; the step orchestrator reads only
the section list's length and each section's field list. Field specs are
reduced to their names here because `MultiStepForm.handleStepSubmit` never
inspects them. -/
structure MSection where
  title : String
  fieldNames : List String

/-- Fields that declare a `conditional` block (the filter at source
line 786). -/
def fieldsWithConditionals (fields : List FieldSpec) : List FieldSpec :=
  fields.filter (fun f => f.conditional.isSome)

/-- The visibility result computed for one conditional field inside the
watch callback (source line 799); the `none` branch is unreachable because
the caller filters on `conditional` being present. -/
def condResult (vals : String → JSValue) (f : FieldSpec) : Bool :=
  match f.conditional with
  | some c => evaluateCondition vals c
  | none => true

/-- The `newConditionalFields` object built by the watch callback (source
lines 796-800): one boolean entry per field declaring a `conditional`. -/
def newConditionalFields (fields : List FieldSpec) (vals : String → JSValue) :
    List (String × Bool) :=
  (fieldsWithConditionals fields).map (fun f => (f.name, condResult vals f))

/-- The change test inside `setConditionalFields` (source lines 803-805):
`Object.keys(newConditionalFields).some(key => prevFields[key] !==
newConditionalFields[key])`; a key absent from the previous map (`lookup`
returning `none`) compares unequal to a boolean, as `undefined` does. -/
def visHasChanged (prev newMap : List (String × Bool)) : Bool :=
  newMap.any (fun kv => prev.lookup kv.1 != some kv.2)

/-- One run of the visibility watch callback (source lines 795-808) for a
batch of value changes: recompute the conditional-field map from the latest
values and publish it only when at least one entry changed, otherwise keep
the previous map object. Returns the resulting map and whether a new map
was published. The callback runs on every value change: react-hook-form's
`watch(callback, ...)` takes default values as its second argument, not a
field filter, so the `{ fields: fieldsToWatch }` object passed at source
line 808 does not restrict the subscription. -/
def visStep (fields : List FieldSpec) (prev : List (String × Bool))
    (vals : String → JSValue) : List (String × Bool) × Bool :=
  let newMap := newConditionalFields fields vals
  if visHasChanged prev newMap then (newMap, true) else (prev, false)

/-- The unregister effect (source lines 815-824): every field that declares
a `conditional` whose current visibility entry is not `true` (`false` or
absent, both falsy) is unregistered with `keepValue: false`, removing its
value from the snapshot; removal is modelled by mapping the name to
`undefined`. -/
def unregisterHidden (fields : List FieldSpec) (visMap : List (String × Bool))
    (values : String → JSValue) : String → JSValue :=
  fun k =>
    if fields.any (fun f =>
        f.name == k && f.conditional.isSome && !((visMap.lookup f.name).getD false))
    then .undefined else values k

/-- Length bounds of the compiled string/textarea rule (source lines
497-504, 611-617): the source guards with JS truthiness (`if
(field.validation?.minLength)`), so a bound of `0` attaches no check at
all. -/
def lengthChecksOk (rules : ValidationRules) (s : String) : Bool :=
  (match rules.minLength with
   | some m => decide (m = 0) || decide (m ≤ s.length)
   | none => true)
  &&
  (match rules.maxLength with
   | some m => decide (m = 0) || decide (s.length ≤ m)
   | none => true)

/-- Whether a list element passes `z.string()` (used by the multiselect
rule `z.array(z.string())`). -/
def isStrValue : JSValue → Bool
  | .str _ => true
  | _ => false

/-- The synchronous per-field check compiled by the `zodSchema` switch
(source lines 494-696) applied at submit time to the snapshot entry of one
field. Every branch has the shape `base.optional()` for optional fields and
`base.optional().refine(val => val !== undefined && val !== null && <not
empty>)` for required ones, so: an absent value (`undefined`) passes exactly
when the field is not required; a value of the wrong runtime type (including
`null`, which `z.optional` does not admit) fails; a present value of the
right type passes the type-specific bound checks, and additionally the
non-emptiness refinement when required. -/
def compiledFieldCheck (f : FieldSpec) (v : JSValue) : Bool :=
  let rules := f.validation.getD {}
  match f.type with
  | .string | .textarea =>
    (match v with
     | .undefined => !rules.required
     | .str s => lengthChecksOk rules s && (!rules.required || decide (s ≠ ""))
     | _ => false)
  | .number =>
    (match v with
     | .undefined => !rules.required
     | .num n =>
       (match rules.min with | some m => decide (m ≤ n) | none => true) &&
       (match rules.max with | some m => decide (n ≤ m) | none => true)
     | _ => false)
  | .boolean =>
    (match v with
     | .undefined => !rules.required
     | .bool _ => true
     | _ => false)
  | .date | .radio | .file | .signature =>
    (match v with
     | .undefined => !rules.required
     | .str s => !rules.required || decide (s ≠ "")
     | _ => false)
  | .multiselect =>
    (match v with
     | .undefined => !rules.required
     | .arr xs => xs.all isStrValue && (!rules.required || !xs.isEmpty)
     | _ => false)
  | .dropzone =>
    (match v with
     | .undefined => !rules.required
     | .arr xs => !rules.required || !xs.isEmpty
     | _ => false)

/-- The per-field stage of submit-time validation: the compiled object
schema checks every declared field against the submitted snapshot. -/
def validateFields (fields : List FieldSpec) (values : String → JSValue) : Bool :=
  fields.all (fun f => compiledFieldCheck f (values f.name))

/-- Strict equality `===` between two snapshot entries as used by
`passwordsMatch` (`data[fields[0]] === data[fields[1]]`): both absent
(`undefined === undefined`) is true; two array values are distinct object
references in the snapshot, so `===` compares them as unequal. -/
def jsStrictEq (a b : JSValue) : Bool :=
  match a, b with
  | .undefined, .undefined => true
  | .null, .null => true
  | .str x, .str y => x == y
  | .num x, .num y => x == y
  | .bool x, .bool y => x == y
  | _, _ => false

/-- The built-in `passwordsMatch` entry of the `customValidators` registry
(source lines 460-463): requires exactly two field names and compares their
snapshot values with `===`. -/
def passwordsMatch (data : String → JSValue) (fields : List String) : Bool :=
  match fields with
  | [a, b] => jsStrictEq (data a) (data b)
  | _ => false

/-- Comparison `new Date(a) <= new Date(b)` restricted to ISO
`YYYY-MM-DD` strings, where chronological order is lexicographic string
order (invalid date strings, which compare as NaN and yield false in JS,
are outside the modelled domain — no verified property evaluates them). -/
def dateLE (a b : String) : Bool := decide (a ≤ b)

/-- The built-in `dateRangeValid` entry of the `customValidators` registry
(source lines 465-470): requires exactly two field names and compares their
values as dates; a non-string operand yields an invalid date and the
comparison is false. -/
def dateRangeValid (data : String → JSValue) (fields : List String) : Bool :=
  match fields with
  | [a, b] =>
    (match data a, data b with
     | .str x, .str y => dateLE x y
     | _, _ => false)
  | _ => false

/-- The injected `customValidators` registry (source lines 458-472) as a
name-keyed capability lookup. -/
def customValidators (n : String) :
    Option ((String → JSValue) → List String → Bool) :=
  if n = "passwordsMatch" then some passwordsMatch
  else if n = "dateRangeValid" then some dateRangeValid
  else none

/-- JavaScript `toLowerCase` restricted to the ASCII range (every string
the modelled validators lowercase — country codes and usernames — is
ASCII). -/
def jsToLower (s : String) : String := String.mk (s.toList.map Char.toLower)

/-- Whitespace recognised by the modelled `trim` (ASCII whitespace; the
full JS set also covers Unicode spaces, outside the modelled domain). -/
def isJSWhitespace (c : Char) : Bool :=
  c == ' ' || c == '\t' || c == '\n' || c == '\r'

/-- JavaScript `trim` over ASCII whitespace. -/
def jsTrim (s : String) : String :=
  String.mk (((s.toList.dropWhile isJSWhitespace).reverse.dropWhile
    isJSWhitespace).reverse)

/-- Suffix test `s.endsWith(suffix)`. -/
def strEndsWith (s suffix : String) : Bool :=
  decide (List.IsSuffix suffix.toList s.toList)

/-- The `isUsernameAvailable` async validator (async-validators.ts): a
username is taken when its lowercasing contains one of the reserved
names. -/
def isUsernameAvailable (username : String) : Bool :=
  !(["admin", "root", "superuser", "system"].any
    (fun n => strIncludes (jsToLower username) n))

/-- The `isEmailDomainValid` async validator (async-validators.ts): the
address must contain `@` and the part after the first `@` must end with one
of the listed suffixes. -/
def isEmailDomainValid (email : String) : Bool :=
  if email = "" then false
  else if !strIncludes email "@" then false
  else
    let domain := (email.splitOn "@").getD 1 ""
    [".com", ".org", ".net", ".edu", ".gov"].any (fun d => strEndsWith domain d)

/-- United States ZIP pattern of `isPostalCodeValid`: five digits,
optionally followed by a dash and four digits. -/
def usZipOk (s : String) : Bool :=
  match s.toList with
  | [a, b, c, d, e] => [a, b, c, d, e].all Char.isDigit
  | [a, b, c, d, e, dash, f, g, h, i] =>
    dash == '-' && [a, b, c, d, e, f, g, h, i].all Char.isDigit
  | _ => false

/-- Canadian postal pattern of `isPostalCodeValid`: letter digit letter,
space, digit letter digit. -/
def caPostalOk (s : String) : Bool :=
  match s.toList with
  | [l1, d1, l2, sp, d2, l3, d3] =>
    l1.isAlpha && d1.isDigit && l2.isAlpha && sp == ' ' &&
      d2.isDigit && l3.isAlpha && d3.isDigit
  | _ => false

/-- Letter-or-digit class used by the UK postcode pattern. -/
def isAlnum (c : Char) : Bool := c.isAlpha || c.isDigit

/-- Outward part of the UK postcode pattern:
one or two letters, a digit, then an optional letter-or-digit. -/
def ukOutwardOk (s : List Char) : Bool :=
  match s with
  | [a, d] => a.isAlpha && d.isDigit
  | [a, b, c] =>
    (a.isAlpha && b.isAlpha && c.isDigit) ||
    (a.isAlpha && b.isDigit && isAlnum c)
  | [a, b, c, e] => a.isAlpha && b.isAlpha && c.isDigit && isAlnum e
  | _ => false

/-- Inward part of the UK postcode pattern: a digit then two letters. -/
def ukInwardOk (s : List Char) : Bool :=
  match s with
  | [d, x, y] => d.isDigit && x.isAlpha && y.isAlpha
  | _ => false

/-- United Kingdom postcode pattern of `isPostalCodeValid`: outward part,
exactly one space, inward part. -/
def ukPostcodeOk (s : String) : Bool :=
  match s.splitOn " " with
  | [p1, p2] => ukOutwardOk p1.toList && ukInwardOk p2.toList
  | _ => false

/-- The `isPostalCodeValid` async validator (async-validators.ts): country
dispatch with a non-empty default; an empty postal code is rejected up
front. -/
def isPostalCodeValid (postalCode country : String) : Bool :=
  if postalCode = "" then false
  else
    match jsToLower country with
    | "us" => usZipOk postalCode
    | "ca" => caPostalOk postalCode
    | "uk" => ukPostcodeOk postalCode
    | _ => decide (0 < (jsTrim postalCode).length)

/-- Registry entry for `isPostalCodeValid`: the country is the first
companion argument; calling with no companion throws a TypeError in JS
which the refine's try/catch converts to a failed validation, modelled by
`false`. -/
def postalCodeValidatorEntry (v : String) (args : List String) : Bool :=
  match args with
  | c :: _ => isPostalCodeValid v c
  | [] => false

/-- The injected `asyncValidators` registry (async-validators.ts) as a
name-keyed capability lookup. Each entry receives the field's own value and
the list of companion argument values. -/
def asyncValidators (n : String) : Option (String → List String → Bool) :=
  if n = "isUsernameAvailable" then some (fun v _ => isUsernameAvailable v)
  else if n = "isEmailDomainValid" then some (fun v _ => isEmailDomainValid v)
  else if n = "isPostalCodeValid" then some postalCodeValidatorEntry
  else none

/-- Console reports emitted while compiling or running validations. -/
inductive LogEvent where
  | warnValidatorNotFound (name : String)
deriving DecidableEq, Repr

/-- One collected cross-field validation (the entries pushed at source
lines 487-491). -/
structure CrossFieldValidation where
  fields : List String
  validator : String
  errorMessage : String
deriving DecidableEq, Repr

/-- JavaScript `a || b` on an optional string: an absent or empty (falsy)
message falls back to the default. -/
def jsOrDefault (m : Option String) (d : String) : String :=
  match m with
  | some s => if s = "" then d else s
  | none => d

/-- Collection of cross-field validations from the field list (source lines
486-492): each field with a `customValidator` contributes one entry whose
message is `field.validation.errorMessage ||` a per-field default. -/
def crossFieldValidationsOf (fields : List FieldSpec) : List CrossFieldValidation :=
  fields.filterMap (fun f =>
    match f.validation with
    | some rules =>
      (match rules.customValidator with
       | some cv =>
         some { fields := cv.fields, validator := cv.validator,
                errorMessage := jsOrDefault rules.errorMessage
                  ("Validation failed for " ++ f.name) }
       | none => none)
    | none => none)

/-- The body of the object-level refine (source lines 705-715):
`crossFieldValidations.every(...)` with short-circuit, looking each
validator up in the injected registry; a missing validator logs a warning
and counts as passing. Returns the aggregate boolean and the warnings
emitted before `every` stopped. -/
def runCrossFieldValidations (data : String → JSValue) :
    List CrossFieldValidation → Bool × List LogEvent
  | [] => (true, [])
  | v :: rest =>
    match customValidators v.validator with
    | none =>
      let r := runCrossFieldValidations data rest
      (r.1, .warnValidatorNotFound v.validator :: r.2)
    | some f =>
      if f data v.fields then runCrossFieldValidations data rest
      else (false, [])

/-- A zod validation issue: the `path` array and `message` supplied to
`ctx`/the refine options. A zod `path` is the location of one single issue
(a chain of keys), and the resolver attaches the issue to the field named
by that chain. -/
structure ZodIssue where
  path : List String
  message : String
deriving DecidableEq, Repr

/-- Issues produced by the object-level cross-field refine (source lines
703-721): the refine is attached only when validations were collected; on
failure zod records exactly one issue whose `path` is
`crossFieldValidations.flatMap(v => v.fields)` and whose `message` joins
every collected validation's message with `"; "`. -/
def crossFieldIssues (validations : List CrossFieldValidation)
    (data : String → JSValue) : List ZodIssue :=
  if validations.isEmpty then []
  else if (runCrossFieldValidations data validations).1 then []
  else
    [{ path := validations.flatMap (fun v => v.fields),
       message := String.intercalate "; " (validations.map (fun v => v.errorMessage)) }]

/-- Full submit-time outcome of the compiled ruleset for schemas whose
per-field rules are synchronous: the object schema's per-field checks plus
the object-level cross-field refine. -/
def zodParsePasses (fields : List FieldSpec) (values : String → JSValue) : Bool :=
  validateFields fields values &&
    (crossFieldIssues (crossFieldValidationsOf fields) values).isEmpty

/-- The companion values built inside the async refine callback (source
lines 522-525): `params.map(paramField => { return '' })` — every companion
field name is mapped to the placeholder empty string; despite the adjacent
comment, nothing later replaces these placeholders. -/
def asyncRefineParamValues (params : List String) : List String :=
  params.map (fun _ => "")

/-- The full argument list passed to the registered async validator at
source line 529: `asyncValidator(val, ...paramValues)`. -/
def asyncRefineArgs (val : String) (params : List String) : List String :=
  val :: asyncRefineParamValues params

/-- Modelled from the spec (§4.2, §9): the argument list the submit-time
pass is required to hand the async validator — the field's own current
value followed by each companion field's value resolved live from the
snapshot at call time. -/
def specAsyncRefineArgs (snapshot : String → String) (val : String)
    (params : List String) : List String :=
  val :: params.map snapshot

/-- The outcome of one async refine invocation as compiled (source lines
517-534): skip (pass) on an empty value, otherwise call the registered
validator with the field value and the placeholder companion values. -/
def asyncRefineRun (validator : String → List String → Bool) (val : String)
    (params : List String) : Bool :=
  if val = "" then true
  else validator val (asyncRefineParamValues params)

/-- Attachment of an async check while compiling a string field (source
lines 511-515, 513): the named validator is looked up in the registry; when
it is absent the refinement is silently not attached — no log is emitted on
this path. Returns the attached validator, if any, together with the logs
produced during compilation. -/
def compileAsyncCheck (name : String) :
    Option (String → List String → Bool) × List LogEvent :=
  match asyncValidators name with
  | some f => (some f, [])
  | none => (none, [])

/-- Events of one submit-time validation pass, in execution order. -/
inductive CheckEvent where
  | fieldSync (name : String)
  | fieldAsyncAwait (name : String)
  | crossField
deriving DecidableEq, Repr

/-- Execution order of the checks compiled for one field. The compiled
element schema is built inside the `"string"` case as `z.string()` with
bound checks, then `.refine(async ...)` when an async validator is declared
and found in the registry (only the string branch attaches async checks),
then `.optional()` and the required-presence `.refine`. Parsing therefore
runs the synchronous base checks, awaits the async refinement, and runs the
required refinement, in that order, all within the per-field phase. -/
def fieldTrace (f : FieldSpec) : List CheckEvent :=
  let rules := f.validation.getD {}
  let asyncPart : List CheckEvent :=
    match f.type, rules.asyncValidator with
    | .string, some av =>
      if (asyncValidators av.name).isSome then [.fieldAsyncAwait f.name] else []
    | _, _ => []
  [.fieldSync f.name] ++ asyncPart ++
    (if rules.required then [.fieldSync f.name] else [])

/-- Execution order of a whole submit-time validation pass: the object
schema parses every field (running that field's compiled chain, including
any awaited async refinement), and only afterwards does the object-level
cross-field refine (attached at source lines 703-721 outside the object)
run — zod executes a `.refine` strictly after the schema it wraps. -/
def validationTrace (fields : List FieldSpec) : List CheckEvent :=
  fields.flatMap fieldTrace ++
    (if (crossFieldValidationsOf fields).isEmpty then [] else [.crossField])

/-- Identity of a JavaScript object reference; fresh identities model newly
allocated objects, and React's dependency comparison (`Object.is`) on
object references is identity equality. -/
abbrev Ident := Nat

/-- The hook state of one mounted `DynamicFormGenerator` that is relevant
to ruleset compilation: the schema prop's identity, the cached `useMemo`
results (`getAllFields` keyed on `[schema]`, `zodSchema` keyed on
`[getAllFields, customValidators]`), how often the `zodSchema` body has
run, a fresh-identity allocator, and the published visibility map. -/
structure GenHooks where
  schemaIdent : Ident
  getAllFieldsIdent : Ident
  zodDeps : Ident × Ident
  compileCount : Nat
  nextIdent : Ident
  visMap : List (String × Bool)

/-- The first render of `DynamicFormGenerator`: every `useMemo` computes
its value (the ruleset is compiled once), and the `customValidators` object
literal (source line 458) is allocated for this render. -/
def mountGen (schemaId : Ident) : GenHooks :=
  { schemaIdent := schemaId, getAllFieldsIdent := 0, zodDeps := (0, 1),
    compileCount := 1, nextIdent := 2, visMap := [] }

/-- A subsequent render of `DynamicFormGenerator`: `getAllFields` is reused
while the schema reference is unchanged; `customValidators` is a plain
object literal in the component body (source lines 458-472) and is
therefore a fresh object on every render; `zodSchema`'s `useMemo`
recomputes exactly when its dependency array `[getAllFields,
customValidators]` (source line 724) differs from the previous render's. -/
def rerenderGen (schemaId : Ident) (s : GenHooks) : GenHooks :=
  let gaf := if schemaId = s.schemaIdent then s.getAllFieldsIdent else s.nextIdent
  let n1 := if schemaId = s.schemaIdent then s.nextIdent else s.nextIdent + 1
  let cv := n1
  let deps := (gaf, cv)
  { schemaIdent := schemaId
    getAllFieldsIdent := gaf
    zodDeps := if deps = s.zodDeps then s.zodDeps else deps
    compileCount := if deps = s.zodDeps then s.compileCount else s.compileCount + 1
    nextIdent := n1 + 1
    visMap := s.visMap }

/-- Effect of one batch of field-value changes on the mounted component:
the watch callback recomputes visibility (`visStep`); when it publishes a
new map, `setConditionalFields` re-renders the component, otherwise no
render occurs. The schema prop is unchanged throughout. -/
def valueChangeGen (fields : List FieldSpec) (schemaId : Ident)
    (vals : String → JSValue) (s : GenHooks) : GenHooks :=
  let r := visStep fields s.visMap vals
  if r.2 then rerenderGen schemaId { s with visMap := r.1 }
  else { s with visMap := r.1 }

/-- The hook state of one mounted `MultiStepForm` (source lines 104-143):
the current step index, the accumulated form data, and the terminal
submissions performed so far (the terminal branch at lines 133-138 reports
the merged result; it is modelled as an emission). -/
structure MultiStepState where
  currentStep : Nat
  formData : String → Option String
  emissions : List (String → Option String)

/-- Initial `MultiStepForm` state: step `0`, empty data, nothing
emitted. -/
def initMultiStepState : MultiStepState :=
  { currentStep := 0, formData := fun _ => none, emissions := [] }

/-- The `handleStepSubmit` handler (source lines 127-143): merge the step's
data over the accumulated data (`{...formData, ...data}` — the new step's
keys win); if the current step index equals `sections.length - 1` (a
JavaScript number, `-1` for an empty section list) emit the merged result
as the terminal submission, otherwise advance to the next step. -/
def handleStepSubmit (sections : List MSection) (st : MultiStepState)
    (data : List (String × String)) : MultiStepState :=
  let updatedFormData : String → Option String := fun k =>
    match data.lookup k with
    | some v => some v
    | none => st.formData k
  if (st.currentStep : Int) = (sections.length : Int) - 1 then
    { currentStep := st.currentStep, formData := updatedFormData,
      emissions := st.emissions ++ [updatedFormData] }
  else
    { currentStep := st.currentStep + 1, formData := updatedFormData,
      emissions := st.emissions }

/-- Demo condition from spec §8: visible when `shipTo` is not
`"domestic"`. -/
def shipToCondition : CondExpr :=
  .mk "shipTo" (some .notEquals) (some (.s "domestic")) none [] none

/-- Demo field: a plain string field controlling visibility of
`country`. -/
def shipToField : FieldSpec := { name := "shipTo", type := .string }

/-- Demo field: a required string field that is only visible when
`shipTo` is not `"domestic"`. -/
def countryField : FieldSpec :=
  { name := "country", type := .string,
    validation := some { required := true },
    conditional := some shipToCondition }

/-- Demo schema field list for the conditional-visibility scenarios. -/
def demoFields : List FieldSpec := [shipToField, countryField]

/-- Demo snapshot: `shipTo` set to `"domestic"` while `country` still
holds a previously entered value. -/
def demoValuesDomestic : String → JSValue := fun k =>
  if k == "shipTo" then .str "domestic"
  else if k == "country" then .str "France"
  else .undefined

/-- Demo snapshot: `shipTo` set to `"international"`. -/
def demoValuesIntl : String → JSValue := fun k =>
  if k == "shipTo" then .str "international" else .undefined

/-- Demo field: a string field bound to the `isUsernameAvailable` async
validator. -/
def usernameField : FieldSpec :=
  { name := "username", type := .string,
    validation :=
      some { asyncValidator := some { name := "isUsernameAvailable", params := [] } } }

/-- Demo field: first password field. -/
def pwField : FieldSpec := { name := "pw", type := .string }

/-- Demo field: confirmation field carrying the `passwordsMatch`
cross-field check over `["pw", "pw2"]`. -/
def pw2Field : FieldSpec :=
  { name := "pw2", type := .string,
    validation :=
      some { errorMessage := some "Passwords must match",
             customValidator := some { fields := ["pw", "pw2"], validator := "passwordsMatch" } } }

/-- Demo field list combining an async-validated field with a cross-field
check. -/
def traceFields : List FieldSpec := [usernameField, pwField, pw2Field]

/-- Demo snapshot with mismatched passwords. -/
def pwData : String → JSValue := fun k =>
  if k == "pw" then .str "a"
  else if k == "pw2" then .str "b"
  else .undefined

/-- Demo live companion snapshot for the postal-code scenario: the user
has selected country `"ca"`. -/
def postalSnapshot : String → String := fun k =>
  if k = "country" then "ca" else ""

/-- Two-section schema of the step-advancement scenario: section `A` with
two fields, section `B` with one. -/
def twoSections (a1 a2 b1 : String) : List MSection :=
  [{ title := "A", fieldNames := [a1, a2] }, { title := "B", fieldNames := [b1] }]

/-- State after submitting step A's data on the two-section schema. -/
def stepARun (a1 a2 b1 v1 v2 : String) : MultiStepState :=
  handleStepSubmit (twoSections a1 a2 b1) initMultiStepState [(a1, v1), (a2, v2)]

/-- State after then submitting step B's data. -/
def stepBRun (a1 a2 b1 v1 v2 v3 : String) : MultiStepState :=
  handleStepSubmit (twoSections a1 a2 b1) (stepARun a1 a2 b1 v1 v2) [(b1, v3)]

/-- Demo composite condition: an `"or"` node over the two leaves
`isEmpty a` and `isNotEmpty a`. -/
def orDemoCond : CondExpr :=
  .mk "x" none none none
    [.mk "a" (some .isEmpty) none none [] none,
     .mk "a" (some .isNotEmpty) none none [] none]
    (some .or)

/-- Demo snapshot assigning no field a value. -/
def emptySnapshot : String → JSValue := fun _ => .undefined

/-- The disjunction helper agrees with `List.any` of the evaluator. -/
theorem anyChildHolds_eq_any (vals : String → JSValue) (l : List CondExpr) :
    anyChildHolds vals l = l.any (evaluateCondition vals) := by
  induction l with
  | nil => rfl
  | cons c cs ih => simp [anyChildHolds, ih]

/-- The conjunction helper agrees with `List.all` of the evaluator. -/
theorem allChildrenHold_eq_all (vals : String → JSValue) (l : List CondExpr) :
    allChildrenHold vals l = l.all (evaluateCondition vals) := by
  induction l with
  | nil => rfl
  | cons c cs ih => simp [allChildrenHold, ih]

/-- Lookup in an association list built by mapping names to computed
values: with pairwise distinct names, a member's entry is its computed
value. -/
theorem lookup_map_name {l : List FieldSpec} (g : FieldSpec → Bool)
    (hnd : (l.map (fun f => f.name)).Nodup) {f : FieldSpec} (hf : f ∈ l) :
    (l.map (fun x => (x.name, g x))).lookup f.name = some (g f) := by
  induction l with
  | nil => cases hf
  | cons x xs ih =>
    simp only [List.map_cons, List.nodup_cons] at hnd
    rcases List.mem_cons.mp hf with rfl | hmem
    · simp [List.lookup]
    · have hne : (f.name == x.name) = false := by
        refine beq_eq_false_iff_ne.mpr ?_
        intro h
        exact hnd.1 (h ▸ List.mem_map_of_mem (fun f => f.name) hmem)
      simpa [List.lookup, hne] using ih hnd.2 hmem

/-- Membership in the conditional-field map: every field declaring a
conditional contributes its evaluated entry. -/
theorem mem_newConditionalFields {fields : List FieldSpec} {f : FieldSpec}
    {c : CondExpr} (hf : f ∈ fields) (hc : f.conditional = some c)
    (vals : String → JSValue) :
    (f.name, evaluateCondition vals c) ∈ newConditionalFields fields vals := by
  have hfc : f ∈ fieldsWithConditionals fields := by
    simp [fieldsWithConditionals, List.mem_filter, hf, hc]
  have : condResult vals f = evaluateCondition vals c := by
    simp [condResult, hc]
  simpa [newConditionalFields, this] using
    List.mem_map_of_mem (fun f => (f.name, condResult vals f)) hfc

/-- The per-field traces contain only per-field events, never the
cross-field event. -/
theorem crossField_not_mem_fieldTrace (f : FieldSpec) :
    CheckEvent.crossField ∉ fieldTrace f := by
  intro h
  simp only [fieldTrace, List.mem_append, List.mem_singleton] at h
  rcases h with (h | h) | h
  · cases h
  · revert h
    split
    · split
      · intro h; simp at h
      · intro h; simp at h
    · intro h; simp at h
  · revert h
    split
    · intro h; simp at h
    · intro h; simp at h

/-- Folding `handleStepSubmit` over an empty section list never emits and
increments the step counter once per submission, from any starting
state. -/
theorem foldl_handleStepSubmit_nil (ds : List (List (String × String))) :
    ∀ st : MultiStepState,
      (ds.foldl (handleStepSubmit []) st).emissions = st.emissions ∧
      (ds.foldl (handleStepSubmit []) st).currentStep = st.currentStep + ds.length := by
  induction ds with
  | nil => intro st; simp
  | cons d rest ih =>
    intro st
    have hterm : ¬ ((st.currentStep : Int) = (([] : List MSection).length : Int) - 1) := by
      simp only [List.length_nil, Int.natCast_zero]
      omega
    have hstep : (handleStepSubmit [] st d).emissions = st.emissions ∧
        (handleStepSubmit [] st d).currentStep = st.currentStep + 1 := by
      simp [handleStepSubmit, hterm]
    rcases ih (handleStepSubmit [] st d) with ⟨h1, h2⟩
    refine ⟨?_, ?_⟩
    · rw [List.foldl_cons, h1, hstep.1]
    · rw [List.foldl_cons, h2, hstep.2, List.length_cons]
      omega

/-- Composite evaluation reduces to `some`/`every` over the children. -/
theorem evaluateCondition_composite (vals : String → JSValue) (fld : String)
    (op : Option CondOp) (v e : Option Scalar) (conds : List CondExpr)
    (lop : Option LogicOp) (h : 0 < conds.length) :
    evaluateCondition vals (.mk fld op v e conds lop) =
      (match lop with
       | some .or => conds.any (evaluateCondition vals)
       | _ => conds.all (evaluateCondition vals)) := by
  cases lop with
  | none => simp only [evaluateCondition, if_pos h, allChildrenHold_eq_all]
  | some l =>
    cases l with
    | or => simp only [evaluateCondition, if_pos h, anyChildHolds_eq_any]
    | and => simp only [evaluateCondition, if_pos h, allChildrenHold_eq_all]

/-- C5: for every composite condition node (nonempty `conditions`),
evaluation with `logicalOperator: "or"` is true iff at least one child
evaluates true, and with `logicalOperator: "and"` or the operator omitted,
true iff all children evaluate true. -/
theorem c5_composite_semantics (c : CondExpr) (vals : String → JSValue)
    (hc : c.conditions ≠ []) :
    (c.logicalOperator = some LogicOp.or →
      (evaluateCondition vals c = true ↔
        ∃ child ∈ c.conditions, evaluateCondition vals child = true)) ∧
    ((c.logicalOperator = some LogicOp.and ∨ c.logicalOperator = none) →
      (evaluateCondition vals c = true ↔
        ∀ child ∈ c.conditions, evaluateCondition vals child = true)) := by
  obtain ⟨fld, op, v, e, conds, lop⟩ := c
  simp only [CondExpr.conditions] at hc ⊢
  simp only [CondExpr.logicalOperator]
  have hlen : 0 < conds.length := List.length_pos.mpr hc
  have heval := evaluateCondition_composite vals fld op v e conds lop hlen
  constructor
  · rintro rfl
    rw [heval]
    simp [List.any_eq_true]
  · rintro (rfl | rfl) <;>
      · rw [heval]
        simp [List.all_eq_true]

/-- Witness for C5 at the concrete composite node `orDemoCond` over an
empty snapshot. -/
theorem c5_composite_semantics_witness :
    (orDemoCond.conditions ≠ []) ∧
    ((orDemoCond.logicalOperator = some LogicOp.or →
      (evaluateCondition emptySnapshot orDemoCond = true ↔
        ∃ child ∈ orDemoCond.conditions,
          evaluateCondition emptySnapshot child = true)) ∧
     ((orDemoCond.logicalOperator = some LogicOp.and ∨
       orDemoCond.logicalOperator = none) →
      (evaluateCondition emptySnapshot orDemoCond = true ↔
        ∀ child ∈ orDemoCond.conditions,
          evaluateCondition emptySnapshot child = true))) :=
  ⟨by simp [orDemoCond, CondExpr.conditions],
   c5_composite_semantics orDemoCond emptySnapshot
     (by simp [orDemoCond, CondExpr.conditions])⟩

/-- C9: after a batch of value changes (one run of the watch callback),
the resulting visibility map gives every conditional field exactly the
Condition Evaluator's result on the latest snapshot — whether or not a new
map was published — and a new map is published only when at least one
conditional field's boolean differs from the previous map. Distinctness of
the conditional fields' names mirrors the JS object keyed by field name. -/
theorem c9_visibility_map (fields : List FieldSpec) (prev : List (String × Bool))
    (vals : String → JSValue)
    (hnd : ((fieldsWithConditionals fields).map (fun f => f.name)).Nodup) :
    (∀ f ∈ fields, ∀ c, f.conditional = some c →
      (visStep fields prev vals).1.lookup f.name =
        some (evaluateCondition vals c)) ∧
    ((visStep fields prev vals).2 = true →
      ∃ f ∈ fields, ∃ c, f.conditional = some c ∧
        prev.lookup f.name ≠ some (evaluateCondition vals c)) := by
  constructor
  · intro f hf c hc
    by_cases hch : visHasChanged prev (newConditionalFields fields vals) = true
    · have hres : (visStep fields prev vals).1 = newConditionalFields fields vals := by
        simp [visStep, hch]
      rw [hres]
      have hmem : f ∈ fieldsWithConditionals fields := by
        simp [fieldsWithConditionals, List.mem_filter, hf, hc]
      have hlook := lookup_map_name (condResult vals) hnd hmem
      simpa [newConditionalFields, condResult, hc] using hlook
    · have hres : (visStep fields prev vals).1 = prev := by
        simp [visStep, hch]
      rw [hres]
      have hall : ∀ kv ∈ newConditionalFields fields vals,
          prev.lookup kv.1 = some kv.2 := by
        intro kv hkv
        by_contra hne
        apply hch
        rw [visHasChanged, List.any_eq_true]
        exact ⟨kv, hkv, bne_iff_ne.mpr hne⟩
      have hkv := mem_newConditionalFields hf hc vals
      exact hall _ hkv
  · intro hpub
    have hch : visHasChanged prev (newConditionalFields fields vals) = true := by
      by_contra hch
      simp [visStep, hch] at hpub
    rw [visHasChanged, List.any_eq_true] at hch
    obtain ⟨kv, hkv, hdiff⟩ := hch
    simp only [newConditionalFields, List.mem_map] at hkv
    obtain ⟨f, hfmem, rfl⟩ := hkv
    have hfil := List.mem_filter.mp hfmem
    obtain ⟨c, hc⟩ := Option.isSome_iff_exists.mp hfil.2
    refine ⟨f, hfil.1, c, hc, ?_⟩
    have : condResult vals f = evaluateCondition vals c := by simp [condResult, hc]
    rw [← this]
    exact bne_iff_ne.mp hdiff

/-- Witness for C9 on the demo schema: `country` is conditional on
`shipTo`, the previous map is empty, and the snapshot sets `shipTo` to
`"international"`. -/
theorem c9_visibility_map_witness :
    (((fieldsWithConditionals demoFields).map (fun f => f.name)).Nodup) ∧
    ((∀ f ∈ demoFields, ∀ c, f.conditional = some c →
      (visStep demoFields [] demoValuesIntl).1.lookup f.name =
        some (evaluateCondition demoValuesIntl c)) ∧
     ((visStep demoFields [] demoValuesIntl).2 = true →
      ∃ f ∈ demoFields, ∃ c, f.conditional = some c ∧
        ([] : List (String × Bool)).lookup f.name ≠
          some (evaluateCondition demoValuesIntl c))) :=
  ⟨by decide, c9_visibility_map demoFields [] demoValuesIntl (by decide)⟩

/-- C6: on a schema with sections `[A (2 fields), B (1 field)]`,
submitting step A's data advances without emitting, submitting step B's
data then emits exactly one terminal submission whose merged payload holds
all three keys, and merging always lets a later step's keys overwrite
earlier ones on collision. -/
theorem c6_multistep_merge (a1 a2 b1 v1 v2 v3 : String)
    (h12 : a1 ≠ a2) (h1b : a1 ≠ b1) (h2b : a2 ≠ b1) :
    (stepARun a1 a2 b1 v1 v2).emissions = [] ∧
    (stepARun a1 a2 b1 v1 v2).currentStep = 1 ∧
    (stepBRun a1 a2 b1 v1 v2 v3).emissions =
      [(stepBRun a1 a2 b1 v1 v2 v3).formData] ∧
    (stepBRun a1 a2 b1 v1 v2 v3).formData a1 = some v1 ∧
    (stepBRun a1 a2 b1 v1 v2 v3).formData a2 = some v2 ∧
    (stepBRun a1 a2 b1 v1 v2 v3).formData b1 = some v3 ∧
    (∀ (st : MultiStepState) (d : List (String × String)) (k v : String),
      d.lookup k = some v →
      (handleStepSubmit (twoSections a1 a2 b1) st d).formData k = some v) := by
  have e1b : (a1 == b1) = false := beq_eq_false_iff_ne.mpr h1b
  have e2b : (a2 == b1) = false := beq_eq_false_iff_ne.mpr h2b
  have e21 : (a2 == a1) = false := beq_eq_false_iff_ne.mpr (Ne.symm h12)
  refine ⟨rfl, rfl, rfl, ?_, ?_, ?_, ?_⟩
  · simp [stepBRun, stepARun, twoSections, handleStepSubmit,
      initMultiStepState, List.lookup, e1b]
  · simp [stepBRun, stepARun, twoSections, handleStepSubmit,
      initMultiStepState, List.lookup, e2b, e21]
  · simp [stepBRun, stepARun, twoSections, handleStepSubmit,
      initMultiStepState, List.lookup]
  · intro st d k v h
    by_cases hc : ((st.currentStep : Int) = ((twoSections a1 a2 b1).length : Int) - 1)
    · simp [handleStepSubmit, hc, h]
    · simp [handleStepSubmit, hc, h]

/-- Witness for C6 at concrete field names and values. -/
theorem c6_multistep_merge_witness :
    ("a1" ≠ "a2" ∧ "a1" ≠ "b1" ∧ "a2" ≠ "b1") ∧
    ((stepARun "a1" "a2" "b1" "v1" "v2").emissions = [] ∧
     (stepARun "a1" "a2" "b1" "v1" "v2").currentStep = 1 ∧
     (stepBRun "a1" "a2" "b1" "v1" "v2" "v3").emissions =
       [(stepBRun "a1" "a2" "b1" "v1" "v2" "v3").formData] ∧
     (stepBRun "a1" "a2" "b1" "v1" "v2" "v3").formData "a1" = some "v1" ∧
     (stepBRun "a1" "a2" "b1" "v1" "v2" "v3").formData "a2" = some "v2" ∧
     (stepBRun "a1" "a2" "b1" "v1" "v2" "v3").formData "b1" = some "v3" ∧
     (∀ (st : MultiStepState) (d : List (String × String)) (k v : String),
       d.lookup k = some v →
       (handleStepSubmit (twoSections "a1" "a2" "b1") st d).formData k = some v)) :=
  ⟨⟨by decide, by decide, by decide⟩,
   c6_multistep_merge "a1" "a2" "b1" "v1" "v2" "v3"
     (by decide) (by decide) (by decide)⟩

/-- C10: with no `sections` entry (an empty section list), the terminal
test `currentStep === sections.length - 1` compares a non-negative index
with `-1` and never holds, so every step submission merely increments the
step index and the merged result is never emitted. -/
theorem c10_empty_sections_never_submits (ds : List (List (String × String))) :
    (¬ ∃ k : Nat, ((k : Int) = (([] : List MSection).length : Int) - 1)) ∧
    (ds.foldl (handleStepSubmit []) initMultiStepState).emissions = [] ∧
    (ds.foldl (handleStepSubmit []) initMultiStepState).currentStep = ds.length := by
  refine ⟨?_, ?_, ?_⟩
  · rintro ⟨k, hk⟩
    simp only [List.length_nil, Int.natCast_zero] at hk
    omega
  · exact (foldl_handleStepSubmit_nil ds initMultiStepState).1
  · simpa [initMultiStepState] using (foldl_handleStepSubmit_nil ds initMultiStepState).2

/-- C1 evaluated on the code at the failing input: a `postalCode` field
declares `asyncValidator {name: "isPostalCodeValid", params: ["country"]}`,
the live snapshot holds `country = "ca"`, and the field value is
`"invalid"`. The compiled refine hands the validator the placeholder `""`
for the companion (`asyncRefineArgs`), not the live snapshot value required
by the claim (`specAsyncRefineArgs`); consequently the compiled check
accepts `"invalid"` (the validator falls into its default branch), while
the claimed call with the live `"ca"` rejects it. -/
theorem c1_async_params_code_eval :
    asyncRefineArgs "invalid" ["country"] = ["invalid", ""] ∧
    specAsyncRefineArgs postalSnapshot "invalid" ["country"] = ["invalid", "ca"] ∧
    asyncRefineArgs "invalid" ["country"] ≠
      specAsyncRefineArgs postalSnapshot "invalid" ["country"] ∧
    asyncValidators "isPostalCodeValid" = some postalCodeValidatorEntry ∧
    asyncRefineRun postalCodeValidatorEntry "invalid" ["country"] = true ∧
    isPostalCodeValid "invalid" (postalSnapshot "country") = false :=
  ⟨rfl, rfl, by decide, rfl, by decide, by decide⟩

/-- C2 evaluated on the code at the failing input: after mounting (one
compile), a single batch of value changes — setting `shipTo` so that the
conditional `country` field becomes visible — publishes a new visibility
map, re-renders the component, rebuilds the `customValidators` object
literal, and, because that object sits in the `zodSchema` memo's dependency
array, recompiles the ruleset although the schema reference never
changed. -/
theorem c2_ruleset_recompile_code_eval :
    (mountGen 0).compileCount = 1 ∧
    (valueChangeGen demoFields 0 demoValuesIntl (mountGen 0)).schemaIdent =
      (mountGen 0).schemaIdent ∧
    (valueChangeGen demoFields 0 demoValuesIntl (mountGen 0)).compileCount = 2 :=
  ⟨rfl, rfl, by decide⟩

/-- C3 evaluated on the code at the failing input: `country` is required
and conditional on `shipTo ≠ "domestic"`; the snapshot has
`shipTo = "domestic"` with a previously entered `country` value. The watch
run flips `country`'s visibility to false and the unregister effect removes
its value in the same cycle (first two conjuncts — this half of the claim
holds), but the compiled ruleset still applies `country`'s required refine
to the now-absent value, so submit-time validation fails and blocks
submission while the field is hidden (last conjuncts — refuting the
claim). -/
theorem c3_hidden_required_code_eval :
    ((visStep demoFields [("country", true)] demoValuesDomestic).1.lookup "country" =
      some false) ∧
    (unregisterHidden demoFields
        (visStep demoFields [("country", true)] demoValuesDomestic).1
        demoValuesDomestic) "country" = JSValue.undefined ∧
    validateFields demoFields
      (unregisterHidden demoFields
        (visStep demoFields [("country", true)] demoValuesDomestic).1
        demoValuesDomestic) = false ∧
    zodParsePasses demoFields
      (unregisterHidden demoFields
        (visStep demoFields [("country", true)] demoValuesDomestic).1
        demoValuesDomestic) = false :=
  ⟨rfl, rfl, rfl, rfl⟩

/-- C4 evaluated on the code at the failing input: one cross-field check
`passwordsMatch` over `["pw", "pw2"]` fails on mismatched passwords. The
refine emits exactly one zod issue whose path is the nested chain
`["pw", "pw2"]` (the flat-mapped field list) — the resolver attaches it to
the single key `pw.pw2` — and no issue carries path `["pw"]` or `["pw2"]`,
so neither implicated field surfaces the message, refuting the claim. -/
theorem c4_crossfield_message_code_eval :
    crossFieldValidationsOf traceFields =
      [{ fields := ["pw", "pw2"], validator := "passwordsMatch",
         errorMessage := "Passwords must match" }] ∧
    (runCrossFieldValidations pwData (crossFieldValidationsOf traceFields)).1 = false ∧
    crossFieldIssues (crossFieldValidationsOf traceFields) pwData =
      [{ path := ["pw", "pw2"], message := "Passwords must match" }] ∧
    (¬ ∃ issue ∈ crossFieldIssues (crossFieldValidationsOf traceFields) pwData,
      issue.path = ["pw"]) ∧
    (¬ ∃ issue ∈ crossFieldIssues (crossFieldValidationsOf traceFields) pwData,
      issue.path = ["pw2"]) := by
  refine ⟨rfl, rfl, rfl, ?_, ?_⟩ <;> decide

/-- C7 counterexample at a concrete schema (an async-validated `username`
plus the `passwordsMatch` cross-field check): the async validator is
awaited at trace position 1, during the per-field phase, while the
cross-field check runs at position 4 — after it. The claim that every
cross-field check completes strictly before any async validator is awaited
is therefore false at this input. -/
theorem c7_ordering_counterexample :
    (validationTrace traceFields).get? 1 =
      some (CheckEvent.fieldAsyncAwait "username") ∧
    (validationTrace traceFields).get? 4 = some CheckEvent.crossField ∧
    ¬ (∀ i j : Nat, ∀ n : String,
        (validationTrace traceFields).get? i = some CheckEvent.crossField →
        (validationTrace traceFields).get? j = some (CheckEvent.fieldAsyncAwait n) →
        i < j) := by
  refine ⟨rfl, rfl, ?_⟩
  intro h
  have := h 4 1 "username" rfl rfl
  omega

/-- C7 amended: during one submit-time validation pass, every per-field
check — synchronous checks and awaited async validators alike — occurs
strictly before the object-level cross-field refine; in particular async
validators are awaited before, not after, the cross-field check runs. -/
theorem c7_ordering_amended (fields : List FieldSpec) (i j : Nat) (n : String)
    (hi : (validationTrace fields).get? i = some (CheckEvent.fieldSync n) ∨
          (validationTrace fields).get? i = some (CheckEvent.fieldAsyncAwait n))
    (hj : (validationTrace fields).get? j = some CheckEvent.crossField) :
    i < j := by
  have htr : validationTrace fields = fields.flatMap fieldTrace ++
      (if (crossFieldValidationsOf fields).isEmpty then []
       else [CheckEvent.crossField]) := rfl
  have hnc : ∀ e ∈ fields.flatMap fieldTrace, e ≠ CheckEvent.crossField := by
    intro e he hecf
    rw [List.mem_flatMap] at he
    obtain ⟨f, hf, hef⟩ := he
    exact crossField_not_mem_fieldTrace f (hecf ▸ hef)
  have hjlen : (fields.flatMap fieldTrace).length ≤ j := by
    by_contra hlt
    push_neg at hlt
    rw [htr, List.get?_append hlt] at hj
    exact hnc _ (List.get?_mem hj) rfl
  have hilen : i < (fields.flatMap fieldTrace).length := by
    by_contra hge
    push_neg at hge
    rw [htr, List.get?_append_right hge] at hi
    rcases hi with h | h <;>
    · revert h
      split
      · intro h
        simp at h
      · intro h
        rcases hk : i - (fields.flatMap fieldTrace).length with _ | k <;>
            rw [hk] at h <;> simp [List.get?] at h
  omega

/-- Witness for C7's amended theorem at the concrete schema, applying it
to the async await at position 1 and the cross-field check at
position 4. -/
theorem c7_ordering_amended_witness :
    ((validationTrace traceFields).get? 1 =
        some (CheckEvent.fieldSync "username") ∨
     (validationTrace traceFields).get? 1 =
        some (CheckEvent.fieldAsyncAwait "username")) ∧
    (validationTrace traceFields).get? 4 = some CheckEvent.crossField ∧
    1 < 4 :=
  ⟨Or.inr rfl, rfl,
   c7_ordering_amended traceFields 1 4 "username" (Or.inr rfl) rfl⟩

/-- C8 counterexample: compiling a string field whose `asyncValidator`
names a validator absent from the registry (a plausible typo) attaches no
check and emits no log at all — the guard at source lines 513-515 silently
skips the refinement — refuting the claim's assertion that the
configuration error is reported via logging. -/
theorem c8_missing_validator_counterexample :
    asyncValidators "isUsernameAvailible" = none ∧
    compileAsyncCheck "isUsernameAvailible" = (none, []) :=
  ⟨rfl, rfl⟩

/-- C8 amended: a `customValidator` naming an absent validator is treated
as trivially passing and reported with a `console.warn`; an
`asyncValidator` naming an absent validator results in no check being
attached (trivially passing) but produces no log; in both cases the absent
validator never fails the field, throws, or blocks submission. -/
theorem c8_missing_validator_amended (v : CrossFieldValidation)
    (data : String → JSValue) (hs : customValidators v.validator = none)
    (an : String) (ha : asyncValidators an = none) :
    runCrossFieldValidations data [v] =
      (true, [LogEvent.warnValidatorNotFound v.validator]) ∧
    compileAsyncCheck an = (none, []) := by
  constructor
  · simp [runCrossFieldValidations, hs]
  · simp [compileAsyncCheck, ha]

/-- Witness for C8's amended theorem at concrete absent names. -/
theorem c8_missing_validator_amended_witness :
    customValidators "dateRangeVallid" = none ∧
    asyncValidators "isUsernameAvailible" = none ∧
    (runCrossFieldValidations emptySnapshot
        [{ fields := ["start", "end"], validator := "dateRangeVallid",
           errorMessage := "m" }] =
      (true, [LogEvent.warnValidatorNotFound "dateRangeVallid"]) ∧
     compileAsyncCheck "isUsernameAvailible" = (none, [])) :=
  ⟨rfl, rfl,
   c8_missing_validator_amended
     { fields := ["start", "end"], validator := "dateRangeVallid",
       errorMessage := "m" }
     emptySnapshot rfl "isUsernameAvailible" rfl⟩

end DynamicForm
